import Mathlib

/-!
Verification development for the Fraud Eagle belief-propagation engine
(`fraud_eagle` package: `labels.py`, `likelihood.py`, `prior.py`, `graph.py`).

The shallow embedding translates the Python source as follows.

* Enumerations (`ReviewLabel`, `ProductLabel`, `UserLabel`) become inductive
  types.
* Ratings and the hyperparameter `epsilon` (caller-supplied machine numbers)
  are embedded as rationals; log-space message values (outputs of `np.log`,
  `np.logaddexp`) are embedded as real numbers, with `np.log`/`np.exp`
  idealized as `Real.log`/`Real.exp`.
* A `Review` object's two message dictionaries (`dict[ProductLabel, float]`,
  `dict[UserLabel, float]`) are association lists over a common key type
  `MKey` (Python dict keys from distinct enums are distinct objects);
  dictionary lookup is `List.lookup` (a missing key, i.e. Python's
  `KeyError`, is `none`), and dictionary assignment is `msgStore`.
* The graph's mutable per-edge message state is carried as total functions
  from an edge to the two labels of a direction; `retrieve_review`
  materializes the `Review` view of an edge and returns `none` where the
  Python code raises `KeyError` for a missing edge.
* The memoized helpers (`prod_message_from_all_users`,
  `prod_message_from_all_products`, decorated with `lru_cache` and cleared
  at the end of every `update` call) are embedded as the values they
  compute; within one `update` call their inputs are exactly the values the
  cache would serve.
* `update`'s two sequential `for` loops are embedded as the structural
  recursions `runA`/`runB` over the explicit iteration lists
  `pairsA`/`pairsB`, threading the mutated state and the accumulated list
  `diffs`; `max(diffs)` (which raises `ValueError` on an empty list) is
  `List.max?` (which returns `none`).
* `ValueError` raised by the `ReviewGraph` constructor is embedded as the
  `none` branch of an `Option` result.
-/

/-- Review label, `labels.ReviewLabel`. -/
inductive ReviewLabel where
  | PLUS
  | MINUS
deriving DecidableEq

/-- Product label, `labels.ProductLabel`. -/
inductive ProductLabel where
  | GOOD
  | BAD
deriving DecidableEq

/-- User label, `labels.UserLabel`. -/
inductive UserLabel where
  | HONEST
  | FRAUD
deriving DecidableEq

/-- Likelihood of a pair of user and product, `likelihood.psi`.
Arguments in source order: user label, product label, review label, epsilon. -/
def psi (u_label : UserLabel) (p_label : ProductLabel) (r_label : ReviewLabel) (epsilon : ℚ) : ℚ :=
  match r_label, u_label, p_label with
  | ReviewLabel.PLUS, UserLabel.HONEST, ProductLabel.GOOD => 1 - epsilon
  | ReviewLabel.PLUS, UserLabel.HONEST, ProductLabel.BAD => epsilon
  | ReviewLabel.PLUS, UserLabel.FRAUD, ProductLabel.GOOD => 2 * epsilon
  | ReviewLabel.PLUS, UserLabel.FRAUD, ProductLabel.BAD => 1 - 2 * epsilon
  | ReviewLabel.MINUS, UserLabel.HONEST, ProductLabel.GOOD => epsilon
  | ReviewLabel.MINUS, UserLabel.HONEST, ProductLabel.BAD => 1 - epsilon
  | ReviewLabel.MINUS, UserLabel.FRAUD, ProductLabel.GOOD => 1 - 2 * epsilon
  | ReviewLabel.MINUS, UserLabel.FRAUD, ProductLabel.BAD => 2 * epsilon

/-- Logarithm of the prior belief of a user, `prior.phi_u`: `log 2` for every label. -/
noncomputable def phi_u (_u_label : UserLabel) : ℝ := Real.log 2

/-- Logarithm of the prior belief of a product, `prior.phi_p`: `log 2` for every label. -/
noncomputable def phi_p (_p_label : ProductLabel) : ℝ := Real.log 2

/-- `np.logaddexp`, used through the `_logaddexp` wrapper in `graph.py`. -/
noncomputable def logaddexp (x1 x2 : ℝ) : ℝ := Real.log (Real.exp x1 + Real.exp x2)

/-- Message-dictionary key: Python dict keys drawn from the three enums are
pairwise distinct objects, so the key universe is the sum of the enums. -/
inductive MKey where
  | u : UserLabel → MKey
  | p : ProductLabel → MKey
  | r : ReviewLabel → MKey
deriving DecidableEq

/-- Python dict assignment `d[k] = v`: overwrite in place when the key is
present, append otherwise (insertion order preserved). -/
noncomputable def msgStore (d : List (MKey × ℝ)) (k : MKey) (v : ℝ) : List (MKey × ℝ) :=
  if d.any (fun kv => kv.1 == k) then d.map (fun kv => if kv.1 = k then (k, v) else kv)
  else d ++ [(k, v)]

/-- The `Review` edge object of `graph.py`: a rating plus the two message
dictionaries `_user_to_product` and `_product_to_user`. -/
structure Review where
  rating : ℚ
  user_to_product : List (MKey × ℝ)
  product_to_user : List (MKey × ℝ)

/-- `Review.__init__`: all four messages start at `log 0.5`. -/
noncomputable def Review.init (rating : ℚ) : Review :=
  { rating := rating
    user_to_product :=
      [(MKey.p ProductLabel.GOOD, Real.log 0.5), (MKey.p ProductLabel.BAD, Real.log 0.5)]
    product_to_user :=
      [(MKey.u UserLabel.HONEST, Real.log 0.5), (MKey.u UserLabel.FRAUD, Real.log 0.5)] }

/-- `Review.evaluation`: `PLUS` when the rating is at least `0.5`, else `MINUS`. -/
def evaluation (rating : ℚ) : ReviewLabel :=
  if 1 / 2 ≤ rating then ReviewLabel.PLUS else ReviewLabel.MINUS

/-- The `ReviewGraph` of `graph.py`.  Node identities are numbers; `edges` is
the set of `(reviewer, product)` pairs of the `networkx.DiGraph` in insertion
order; the mutable per-edge state (`rating`, the current `_user_to_product`
and `_product_to_user` dictionary values) is carried as total functions of the
edge, read only at pairs present in `edges`. -/
structure ReviewGraph where
  epsilon : ℚ
  reviewers : List ℕ
  products : List ℕ
  edges : List (ℕ × ℕ)
  rating : ℕ → ℕ → ℚ
  user_to_product : ℕ → ℕ → ProductLabel → ℝ
  product_to_user : ℕ → ℕ → UserLabel → ℝ

namespace ReviewGraph

/-- `ReviewGraph.__init__`: raises `ValueError` (here: `none`) unless
`0 < epsilon < 0.5`; otherwise an empty graph storing `epsilon` unchanged. -/
noncomputable def new (epsilon : ℚ) : Option ReviewGraph :=
  if epsilon ≤ 0 ∨ 1 / 2 ≤ epsilon then none
  else some
    { epsilon := epsilon
      reviewers := []
      products := []
      edges := []
      rating := fun _ _ => 0
      user_to_product := fun _ _ _ => Real.log 0.5
      product_to_user := fun _ _ _ => Real.log 0.5 }

/-- `ReviewGraph.new_reviewer`. -/
def new_reviewer (g : ReviewGraph) (name : ℕ) : ReviewGraph :=
  { g with reviewers := g.reviewers ++ [name] }

/-- `ReviewGraph.new_product`. -/
def new_product (g : ReviewGraph) (name : ℕ) : ReviewGraph :=
  { g with products := g.products ++ [name] }

/-- `ReviewGraph.add_review`: `networkx.DiGraph.add_edge` keyed by the pair
(re-adding an existing pair overwrites the stored review), with the fresh
review's messages initialized as in `Review.__init__`. -/
noncomputable def add_review (g : ReviewGraph) (reviewer product : ℕ) (rating : ℚ) : ReviewGraph :=
  { g with
    edges := if (reviewer, product) ∈ g.edges then g.edges else g.edges ++ [(reviewer, product)]
    rating := fun r' p' => if r' = reviewer ∧ p' = product then rating else g.rating r' p'
    user_to_product := fun r' p' =>
      if r' = reviewer ∧ p' = product then fun _ => Real.log 0.5 else g.user_to_product r' p'
    product_to_user := fun r' p' =>
      if r' = reviewer ∧ p' = product then fun _ => Real.log 0.5 else g.product_to_user r' p' }

/-- `ReviewGraph.retrieve_reviewers`: the predecessors of a product. -/
def retrieve_reviewers (g : ReviewGraph) (product : ℕ) : List ℕ :=
  (g.edges.filter (fun e => e.2 == product)).map Prod.fst

/-- `ReviewGraph.retrieve_products`: the successors of a reviewer. -/
def retrieve_products (g : ReviewGraph) (reviewer : ℕ) : List ℕ :=
  (g.edges.filter (fun e => e.1 == reviewer)).map Prod.snd

/-- `ReviewGraph.retrieve_review`: the `Review` stored on an edge; `none`
(Python: `KeyError`) when the pair has no edge. -/
noncomputable def retrieve_review (g : ReviewGraph) (reviewer product : ℕ) : Option Review :=
  if (reviewer, product) ∈ g.edges then
    some
      { rating := g.rating reviewer product
        user_to_product :=
          [(MKey.p ProductLabel.GOOD, g.user_to_product reviewer product ProductLabel.GOOD),
           (MKey.p ProductLabel.BAD, g.user_to_product reviewer product ProductLabel.BAD)]
        product_to_user :=
          [(MKey.u UserLabel.HONEST, g.product_to_user reviewer product UserLabel.HONEST),
           (MKey.u UserLabel.FRAUD, g.product_to_user reviewer product UserLabel.FRAUD)] }
  else none

/-- `ReviewGraph.prod_message_from_all_users`: log of the product of the
user-to-product messages into `product` over `set(retrieve_reviewers(product))`. -/
noncomputable def prod_message_from_all_users (g : ReviewGraph) (product : ℕ)
    (p_label : ProductLabel) : ℝ :=
  (((g.retrieve_reviewers product).dedup).map (fun r => g.user_to_product r product p_label)).sum

/-- `ReviewGraph.prod_message_from_users`: the cached total minus the excluded
reviewer's own message (`0` when `reviewer` is `None`). -/
noncomputable def prod_message_from_users (g : ReviewGraph) (reviewer : Option ℕ) (product : ℕ)
    (p_label : ProductLabel) : ℝ :=
  g.prod_message_from_all_users product p_label -
    (match reviewer with
     | none => 0
     | some r => g.user_to_product r product p_label)

/-- `ReviewGraph.prod_message_from_all_products`: log of the product of the
product-to-user messages into `reviewer` over `set(retrieve_products(reviewer))`. -/
noncomputable def prod_message_from_all_products (g : ReviewGraph) (reviewer : ℕ)
    (u_label : UserLabel) : ℝ :=
  (((g.retrieve_products reviewer).dedup).map (fun p => g.product_to_user reviewer p u_label)).sum

/-- `ReviewGraph.prod_message_from_products`: the cached total minus the
excluded product's own message (`0` when `product` is `None`). -/
noncomputable def prod_message_from_products (g : ReviewGraph) (reviewer : ℕ) (product : Option ℕ)
    (u_label : UserLabel) : ℝ :=
  g.prod_message_from_all_products reviewer u_label -
    (match product with
     | none => 0
     | some p => g.product_to_user reviewer p u_label)

/-- `ReviewGraph._update_user_to_product`: the unnormalized new user-to-product
message, `logaddexp` over the two user labels (dict iteration order
`HONEST, FRAUD`) of `log psi + phi_u + prod_message_from_products`. -/
noncomputable def update_user_to_product_msg (g : ReviewGraph) (reviewer product : ℕ)
    (p_label : ProductLabel) : ℝ :=
  logaddexp
    (Real.log (psi UserLabel.HONEST p_label (evaluation (g.rating reviewer product)) g.epsilon : ℝ) +
      phi_u UserLabel.HONEST + g.prod_message_from_products reviewer (some product) UserLabel.HONEST)
    (Real.log (psi UserLabel.FRAUD p_label (evaluation (g.rating reviewer product)) g.epsilon : ℝ) +
      phi_u UserLabel.FRAUD + g.prod_message_from_products reviewer (some product) UserLabel.FRAUD)

/-- `ReviewGraph._update_product_to_user`: the unnormalized new product-to-user
message, `logaddexp` over the two product labels (dict iteration order
`GOOD, BAD`) of `log psi + phi_p + prod_message_from_users`. -/
noncomputable def update_product_to_user_msg (g : ReviewGraph) (reviewer product : ℕ)
    (u_label : UserLabel) : ℝ :=
  logaddexp
    (Real.log (psi u_label ProductLabel.GOOD (evaluation (g.rating reviewer product)) g.epsilon : ℝ) +
      phi_p ProductLabel.GOOD + g.prod_message_from_users (some reviewer) product ProductLabel.GOOD)
    (Real.log (psi u_label ProductLabel.BAD (evaluation (g.rating reviewer product)) g.epsilon : ℝ) +
      phi_p ProductLabel.BAD + g.prod_message_from_users (some reviewer) product ProductLabel.BAD)

end ReviewGraph

namespace ReviewGraph

/-- One Phase-A loop body of `ReviewGraph.update` for the edge `e = (reviewer,
product)`: compute both unnormalized messages from the current state, normalize
jointly by their `logaddexp`, record the two probability-space diffs against
the currently stored messages (read before the writes), and write both labels.
Returns the new graph state and the diffs in label order `GOOD, BAD`. -/
noncomputable def stepA (g : ReviewGraph) (e : ℕ × ℕ) : ReviewGraph × List ℝ :=
  let mG := g.update_user_to_product_msg e.1 e.2 ProductLabel.GOOD
  let mB := g.update_user_to_product_msg e.1 e.2 ProductLabel.BAD
  let s := logaddexp mG mB
  let newMsg : ProductLabel → ℝ := fun L =>
    (match L with
     | ProductLabel.GOOD => mG
     | ProductLabel.BAD => mB) - s
  ({ g with user_to_product := fun r' p' =>
      if r' = e.1 ∧ p' = e.2 then newMsg else g.user_to_product r' p' },
   [|Real.exp (g.user_to_product e.1 e.2 ProductLabel.GOOD) - Real.exp (newMsg ProductLabel.GOOD)|,
    |Real.exp (g.user_to_product e.1 e.2 ProductLabel.BAD) - Real.exp (newMsg ProductLabel.BAD)|])

/-- One Phase-B loop body of `ReviewGraph.update` for the edge `e = (reviewer,
product)`, symmetric to `stepA`; diffs in label order `HONEST, FRAUD`. -/
noncomputable def stepB (g : ReviewGraph) (e : ℕ × ℕ) : ReviewGraph × List ℝ :=
  let mH := g.update_product_to_user_msg e.1 e.2 UserLabel.HONEST
  let mF := g.update_product_to_user_msg e.1 e.2 UserLabel.FRAUD
  let s := logaddexp mH mF
  let newMsg : UserLabel → ℝ := fun U =>
    (match U with
     | UserLabel.HONEST => mH
     | UserLabel.FRAUD => mF) - s
  ({ g with product_to_user := fun r' p' =>
      if r' = e.1 ∧ p' = e.2 then newMsg else g.product_to_user r' p' },
   [|Real.exp (g.product_to_user e.1 e.2 UserLabel.HONEST) - Real.exp (newMsg UserLabel.HONEST)|,
    |Real.exp (g.product_to_user e.1 e.2 UserLabel.FRAUD) - Real.exp (newMsg UserLabel.FRAUD)|])

/-- The Phase-A `for` loops of `ReviewGraph.update`, sequentially over the
iteration list, threading the mutated state and appending diffs in order. -/
noncomputable def runA : ReviewGraph → List (ℕ × ℕ) → ReviewGraph × List ℝ
  | g, [] => (g, [])
  | g, e :: rest =>
    let s := g.stepA e
    let t := runA s.1 rest
    (t.1, s.2 ++ t.2)

/-- The Phase-B `for` loops of `ReviewGraph.update`. -/
noncomputable def runB : ReviewGraph → List (ℕ × ℕ) → ReviewGraph × List ℝ
  | g, [] => (g, [])
  | g, e :: rest =>
    let s := g.stepB e
    let t := runB s.1 rest
    (t.1, s.2 ++ t.2)

/-- Phase-A iteration order: `for reviewer in self.reviewers: for product in
self.retrieve_products(reviewer)`.  `retrieve_products` is memoized and the
edge set never changes during `update`, so the list is fixed up front. -/
def pairsA (g : ReviewGraph) : List (ℕ × ℕ) :=
  g.reviewers.flatMap (fun r => (g.retrieve_products r).map (fun p => (r, p)))

/-- Phase-B iteration order: `for product in self.products: for reviewer in
self.retrieve_reviewers(product)`, as `(reviewer, product)` edge keys. -/
def pairsB (g : ReviewGraph) : List (ℕ × ℕ) :=
  g.products.flatMap (fun p => (g.retrieve_reviewers p).map (fun r => (r, p)))

/-- `ReviewGraph.update`: Phase A over every (reviewer, product) edge, then
Phase B over every (product, reviewer) edge, returning the new state and
`max(diffs)` over the diffs of both phases (`none` embeds the `ValueError`
that Python's `max` raises on an empty sequence). -/
noncomputable def update (g : ReviewGraph) : ReviewGraph × Option ℝ :=
  let a := runA g (pairsA g)
  let b := runB a.1 (pairsB a.1)
  (b.1, (a.2 ++ b.2).max?)

/-- The graph state after Phase A of one `update` call. -/
noncomputable def phaseAResult (g : ReviewGraph) : ReviewGraph := (runA g (pairsA g)).1

/-- The normalized Phase-A message for edge `e` and label `L`, computed from
the state `g` (snapshot semantics: a pure function of `g`). -/
noncomputable def phaseAValue (g : ReviewGraph) (e : ℕ × ℕ) (L : ProductLabel) : ℝ :=
  g.update_user_to_product_msg e.1 e.2 L -
    logaddexp (g.update_user_to_product_msg e.1 e.2 ProductLabel.GOOD)
      (g.update_user_to_product_msg e.1 e.2 ProductLabel.BAD)

/-- The normalized Phase-B message for edge `e` and label `U`, computed from
the state `g`. -/
noncomputable def phaseBValue (g : ReviewGraph) (e : ℕ × ℕ) (U : UserLabel) : ℝ :=
  g.update_product_to_user_msg e.1 e.2 U -
    logaddexp (g.update_product_to_user_msg e.1 e.2 UserLabel.HONEST)
      (g.update_product_to_user_msg e.1 e.2 UserLabel.FRAUD)

/-- Probability-space difference recorded by Phase A for edge `e`, label `L`:
old stored message of `g` against the normalized new value. -/
noncomputable def diffA (g : ReviewGraph) (e : ℕ × ℕ) (L : ProductLabel) : ℝ :=
  |Real.exp (g.user_to_product e.1 e.2 L) - Real.exp (g.phaseAValue e L)|

/-- Probability-space difference recorded by Phase B for edge `e`, label `U`. -/
noncomputable def diffB (g : ReviewGraph) (e : ℕ × ℕ) (U : UserLabel) : ℝ :=
  |Real.exp (g.product_to_user e.1 e.2 U) - Real.exp (g.phaseBValue e U)|

/-- The per-label belief accumulator `b` of `Reviewer.anomalous_score`:
`phi_u(label) + prod_message_from_products(self, None, label)`. -/
noncomputable def belief (g : ReviewGraph) (reviewer : ℕ) (u_label : UserLabel) : ℝ :=
  phi_u u_label + g.prod_message_from_products reviewer none u_label

/-- `Reviewer.anomalous_score`: `exp(b[FRAUD] - logaddexp(b[HONEST], b[FRAUD]))`. -/
noncomputable def anomalous_score (g : ReviewGraph) (reviewer : ℕ) : ℝ :=
  Real.exp (g.belief reviewer UserLabel.FRAUD -
    logaddexp (g.belief reviewer UserLabel.HONEST) (g.belief reviewer UserLabel.FRAUD))

/-- The local `ratings` list of `Product.summary`. -/
noncomputable def summary_ratings (g : ReviewGraph) (product : ℕ) : List ℝ :=
  (g.retrieve_reviewers product).map (fun r => ((g.rating r product : ℚ) : ℝ))

/-- The local `weights` list of `Product.summary`: trust weight
`1 - anomalous_score` per reviewer of the product. -/
noncomputable def trust_weights (g : ReviewGraph) (product : ℕ) : List ℝ :=
  (g.retrieve_reviewers product).map (fun r => 1 - g.anomalous_score r)

/-- `Product.summary`: `np.mean(ratings)` when `sum(weights) == 0`, otherwise
`np.average(ratings, weights)`. -/
noncomputable def summary (g : ReviewGraph) (product : ℕ) : ℝ :=
  if (g.trust_weights product).sum = 0 then
    (g.summary_ratings product).sum / ((g.retrieve_reviewers product).length : ℝ)
  else
    (List.zipWith (fun w x => w * x) (g.trust_weights product) (g.summary_ratings product)).sum /
      (g.trust_weights product).sum

end ReviewGraph

/-- A concrete graph used to instantiate the theorems: reviewers `0, 1`,
products `10, 11`, reviews `(0, 10)` and `(1, 10)` (product `11` has no
review), `epsilon = 1/4`, all ratings `1/2`, all messages at `log 0.5`. -/
noncomputable def exampleGraph : ReviewGraph :=
  { epsilon := 1 / 4
    reviewers := [0, 1]
    products := [10, 11]
    edges := [(0, 10), (1, 10)]
    rating := fun _ _ => 1 / 2
    user_to_product := fun _ _ _ => Real.log 0.5
    product_to_user := fun _ _ _ => Real.log 0.5 }

/-- A concrete graph with reviewers and products but no review edges. -/
noncomputable def edgelessGraph : ReviewGraph :=
  { epsilon := 1 / 4
    reviewers := [0, 1]
    products := [5]
    edges := []
    rating := fun _ _ => 0
    user_to_product := fun _ _ _ => Real.log 0.5
    product_to_user := fun _ _ _ => Real.log 0.5 }

/-! Basic facts about `logaddexp` and normalization. -/

lemma exp_logaddexp (x y : ℝ) : Real.exp (logaddexp x y) = Real.exp x + Real.exp y := by
  unfold logaddexp
  exact Real.exp_log (by positivity)

lemma exp_norm_pair (a b : ℝ) :
    Real.exp (a - logaddexp a b) + Real.exp (b - logaddexp a b) = 1 := by
  rw [Real.exp_sub, Real.exp_sub, exp_logaddexp, div_add_div_same, div_self]
  positivity

lemma exp_sub_logaddexp_pos (a b : ℝ) : 0 < Real.exp (b - logaddexp a b) :=
  Real.exp_pos _

lemma exp_sub_logaddexp_lt_one (a b : ℝ) : Real.exp (b - logaddexp a b) < 1 := by
  rw [Real.exp_sub, exp_logaddexp]
  refine (div_lt_one (by positivity)).2 ?_
  exact lt_add_of_pos_left _ (Real.exp_pos a)

/-! Structural facts about adjacency retrieval and the iteration lists. -/

namespace ReviewGraph

lemma mem_retrieve_products (g : ReviewGraph) (r p : ℕ) :
    p ∈ g.retrieve_products r ↔ (r, p) ∈ g.edges := by
  unfold retrieve_products
  constructor
  · rintro h
    rcases List.mem_map.1 h with ⟨e, he, rfl⟩
    rcases List.mem_filter.1 he with ⟨hmem, hbeq⟩
    have : e.1 = r := by simpa using hbeq
    cases e
    simp_all
  · intro h
    refine List.mem_map.2 ⟨(r, p), List.mem_filter.2 ⟨h, by simp⟩, rfl⟩

lemma mem_retrieve_reviewers (g : ReviewGraph) (r p : ℕ) :
    r ∈ g.retrieve_reviewers p ↔ (r, p) ∈ g.edges := by
  unfold retrieve_reviewers
  constructor
  · rintro h
    rcases List.mem_map.1 h with ⟨e, he, rfl⟩
    rcases List.mem_filter.1 he with ⟨hmem, hbeq⟩
    have : e.2 = p := by simpa using hbeq
    cases e
    simp_all
  · intro h
    refine List.mem_map.2 ⟨(r, p), List.mem_filter.2 ⟨h, by simp⟩, rfl⟩

lemma nodup_retrieve_products (g : ReviewGraph) (h : g.edges.Nodup) (r : ℕ) :
    (g.retrieve_products r).Nodup := by
  unfold retrieve_products
  refine List.Nodup.map_on ?_ (h.filter _)
  intro x hx y hy hxy
  rcases List.mem_filter.1 hx with ⟨_, hbx⟩
  rcases List.mem_filter.1 hy with ⟨_, hby⟩
  have hx1 : x.1 = r := by simpa using hbx
  have hy1 : y.1 = r := by simpa using hby
  cases x
  cases y
  simp_all

lemma nodup_retrieve_reviewers (g : ReviewGraph) (h : g.edges.Nodup) (p : ℕ) :
    (g.retrieve_reviewers p).Nodup := by
  unfold retrieve_reviewers
  refine List.Nodup.map_on ?_ (h.filter _)
  intro x hx y hy hxy
  rcases List.mem_filter.1 hx with ⟨_, hbx⟩
  rcases List.mem_filter.1 hy with ⟨_, hby⟩
  have hx2 : x.2 = p := by simpa using hbx
  have hy2 : y.2 = p := by simpa using hby
  cases x
  cases y
  simp_all

lemma mem_pairsA (g : ReviewGraph) (e : ℕ × ℕ) :
    e ∈ g.pairsA ↔ e.1 ∈ g.reviewers ∧ e ∈ g.edges := by
  unfold pairsA
  rw [List.mem_flatMap]
  constructor
  · rintro ⟨r, hr, he⟩
    rcases List.mem_map.1 he with ⟨p, hp, rfl⟩
    exact ⟨hr, (g.mem_retrieve_products r p).1 hp⟩
  · rintro ⟨hr, he⟩
    refine ⟨e.1, hr, List.mem_map.2 ⟨e.2, (g.mem_retrieve_products e.1 e.2).2 ?_, rfl⟩⟩
    simpa using he

lemma mem_pairsB (g : ReviewGraph) (e : ℕ × ℕ) :
    e ∈ g.pairsB ↔ e.2 ∈ g.products ∧ e ∈ g.edges := by
  unfold pairsB
  rw [List.mem_flatMap]
  constructor
  · rintro ⟨p, hp, he⟩
    rcases List.mem_map.1 he with ⟨r, hr, rfl⟩
    exact ⟨hp, (g.mem_retrieve_reviewers r p).1 hr⟩
  · rintro ⟨hp, he⟩
    refine ⟨e.2, hp, List.mem_map.2 ⟨e.1, (g.mem_retrieve_reviewers e.1 e.2).2 ?_, rfl⟩⟩
    simpa using he

end ReviewGraph

lemma nodup_flatMap_of_disjoint {α β : Type} (l : List α) (f : α → List β)
    (hl : l.Nodup) (hf : ∀ a ∈ l, (f a).Nodup)
    (hd : ∀ a ∈ l, ∀ b ∈ l, ∀ x, x ∈ f a → x ∈ f b → a = b) :
    (l.flatMap f).Nodup := by
  induction l with
  | nil => simp
  | cons a t ih =>
    rw [List.flatMap_cons, List.nodup_append]
    refine ⟨hf a (List.mem_cons_self a t), ?_, ?_⟩
    · exact ih hl.of_cons (fun b hb => hf b (List.mem_cons_of_mem _ hb))
        (fun b hb c hc x hx hx2 =>
          hd b (List.mem_cons_of_mem _ hb) c (List.mem_cons_of_mem _ hc) x hx hx2)
    · intro x hxa hxt
      rcases List.mem_flatMap.1 hxt with ⟨b, hb, hxb⟩
      have hab : a = b :=
        hd a (List.mem_cons_self a t) b (List.mem_cons_of_mem _ hb) x hxa hxb
      subst hab
      exact (List.nodup_cons.1 hl).1 hb

namespace ReviewGraph

lemma nodup_pairsA (g : ReviewGraph) (hR : g.reviewers.Nodup) (hE : g.edges.Nodup) :
    g.pairsA.Nodup := by
  unfold pairsA
  refine nodup_flatMap_of_disjoint _ _ hR ?_ ?_
  · intro r _
    exact (g.nodup_retrieve_products hE r).map (fun p q h => by simpa using h)
  · intro a _ b _ x hx hy
    rcases List.mem_map.1 hx with ⟨p, _, rfl⟩
    rcases List.mem_map.1 hy with ⟨q, _, hq⟩
    exact (Prod.mk.injEq .. ▸ hq).1.symm

lemma nodup_pairsB (g : ReviewGraph) (hP : g.products.Nodup) (hE : g.edges.Nodup) :
    g.pairsB.Nodup := by
  unfold pairsB
  refine nodup_flatMap_of_disjoint _ _ hP ?_ ?_
  · intro p _
    exact (g.nodup_retrieve_reviewers hE p).map (fun r q h => by simpa using h)
  · intro a _ b _ x hx hy
    rcases List.mem_map.1 hx with ⟨r, _, rfl⟩
    rcases List.mem_map.1 hy with ⟨q, _, hq⟩
    exact (Prod.mk.injEq .. ▸ hq).2.symm

end ReviewGraph

/-! Congruence: the Phase-A computation reads only the hyperparameter, the
ratings, the edge set and the product-to-user messages of a state, and the
Phase-B computation only the hyperparameter, ratings, edge set and
user-to-product messages. -/

namespace ReviewGraph

lemma update_user_to_product_msg_congr {g g0 : ReviewGraph} (h1 : g.epsilon = g0.epsilon)
    (h2 : g.rating = g0.rating) (h3 : g.edges = g0.edges)
    (h4 : g.product_to_user = g0.product_to_user) (r p : ℕ) (L : ProductLabel) :
    g.update_user_to_product_msg r p L = g0.update_user_to_product_msg r p L := by
  simp only [update_user_to_product_msg, prod_message_from_products,
    prod_message_from_all_products, retrieve_products, h1, h2, h3, h4]

lemma update_product_to_user_msg_congr {g g0 : ReviewGraph} (h1 : g.epsilon = g0.epsilon)
    (h2 : g.rating = g0.rating) (h3 : g.edges = g0.edges)
    (h4 : g.user_to_product = g0.user_to_product) (r p : ℕ) (U : UserLabel) :
    g.update_product_to_user_msg r p U = g0.update_product_to_user_msg r p U := by
  simp only [update_product_to_user_msg, prod_message_from_users,
    prod_message_from_all_users, retrieve_reviewers, h1, h2, h3, h4]

lemma phaseAValue_congr {g g0 : ReviewGraph} (h1 : g.epsilon = g0.epsilon)
    (h2 : g.rating = g0.rating) (h3 : g.edges = g0.edges)
    (h4 : g.product_to_user = g0.product_to_user) (e : ℕ × ℕ) (L : ProductLabel) :
    g.phaseAValue e L = g0.phaseAValue e L := by
  unfold phaseAValue
  rw [update_user_to_product_msg_congr h1 h2 h3 h4, update_user_to_product_msg_congr h1 h2 h3 h4,
    update_user_to_product_msg_congr h1 h2 h3 h4]

lemma phaseBValue_congr {g g0 : ReviewGraph} (h1 : g.epsilon = g0.epsilon)
    (h2 : g.rating = g0.rating) (h3 : g.edges = g0.edges)
    (h4 : g.user_to_product = g0.user_to_product) (e : ℕ × ℕ) (U : UserLabel) :
    g.phaseBValue e U = g0.phaseBValue e U := by
  unfold phaseBValue
  rw [update_product_to_user_msg_congr h1 h2 h3 h4, update_product_to_user_msg_congr h1 h2 h3 h4,
    update_product_to_user_msg_congr h1 h2 h3 h4]

/-! Pointwise characterization of one loop body. -/

lemma stepA_utp (g : ReviewGraph) (e : ℕ × ℕ) (r' p' : ℕ) (L : ProductLabel) :
    (g.stepA e).1.user_to_product r' p' L =
      if r' = e.1 ∧ p' = e.2 then g.phaseAValue e L else g.user_to_product r' p' L := by
  simp only [stepA, phaseAValue]
  split_ifs <;> cases L <;> rfl

lemma stepA_snd (g : ReviewGraph) (e : ℕ × ℕ) :
    (g.stepA e).2 = [g.diffA e ProductLabel.GOOD, g.diffA e ProductLabel.BAD] := rfl

lemma stepB_ptu (g : ReviewGraph) (e : ℕ × ℕ) (r' p' : ℕ) (U : UserLabel) :
    (g.stepB e).1.product_to_user r' p' U =
      if r' = e.1 ∧ p' = e.2 then g.phaseBValue e U else g.product_to_user r' p' U := by
  simp only [stepB, phaseBValue]
  split_ifs <;> cases U <;> rfl

lemma stepB_snd (g : ReviewGraph) (e : ℕ × ℕ) :
    (g.stepB e).2 = [g.diffB e UserLabel.HONEST, g.diffB e UserLabel.FRAUD] := rfl

/-! Fold invariants for the two phase loops. -/

lemma runA_preserve (l : List (ℕ × ℕ)) : ∀ g : ReviewGraph,
    (runA g l).1.epsilon = g.epsilon ∧ (runA g l).1.reviewers = g.reviewers ∧
      (runA g l).1.products = g.products ∧ (runA g l).1.edges = g.edges ∧
      (runA g l).1.rating = g.rating ∧ (runA g l).1.product_to_user = g.product_to_user := by
  induction l with
  | nil => intro g; exact ⟨rfl, rfl, rfl, rfl, rfl, rfl⟩
  | cons e t ih => intro g; exact ih (g.stepA e).1

lemma runB_preserve (l : List (ℕ × ℕ)) : ∀ g : ReviewGraph,
    (runB g l).1.epsilon = g.epsilon ∧ (runB g l).1.reviewers = g.reviewers ∧
      (runB g l).1.products = g.products ∧ (runB g l).1.edges = g.edges ∧
      (runB g l).1.rating = g.rating ∧ (runB g l).1.user_to_product = g.user_to_product := by
  induction l with
  | nil => intro g; exact ⟨rfl, rfl, rfl, rfl, rfl, rfl⟩
  | cons e t ih => intro g; exact ih (g.stepB e).1

lemma runA_utp_not_mem (l : List (ℕ × ℕ)) : ∀ (g : ReviewGraph) (r p : ℕ), (r, p) ∉ l →
    ∀ L, (runA g l).1.user_to_product r p L = g.user_to_product r p L := by
  induction l with
  | nil => intro g r p _ L; rfl
  | cons e t ih =>
    intro g r p h L
    have h2 : (r, p) ∉ t := fun hc => h (List.mem_cons_of_mem _ hc)
    have h3 := ih (g.stepA e).1 r p h2 L
    have h4 : (runA g (e :: t)).1.user_to_product r p L =
        (g.stepA e).1.user_to_product r p L := h3
    rw [h4, stepA_utp, if_neg]
    rintro ⟨ha, hb⟩
    exact h (by
      have : (r, p) = e := by cases e; simp_all
      simp [this])

lemma runB_ptu_not_mem (l : List (ℕ × ℕ)) : ∀ (g : ReviewGraph) (r p : ℕ), (r, p) ∉ l →
    ∀ U, (runB g l).1.product_to_user r p U = g.product_to_user r p U := by
  induction l with
  | nil => intro g r p _ U; rfl
  | cons e t ih =>
    intro g r p h U
    have h2 : (r, p) ∉ t := fun hc => h (List.mem_cons_of_mem _ hc)
    have h3 := ih (g.stepB e).1 r p h2 U
    have h4 : (runB g (e :: t)).1.product_to_user r p U =
        (g.stepB e).1.product_to_user r p U := h3
    rw [h4, stepB_ptu, if_neg]
    rintro ⟨ha, hb⟩
    exact h (by
      have : (r, p) = e := by cases e; simp_all
      simp [this])

lemma runA_utp_mem (g0 : ReviewGraph) (l : List (ℕ × ℕ)) : ∀ g : ReviewGraph,
    g.epsilon = g0.epsilon → g.rating = g0.rating → g.edges = g0.edges →
    g.product_to_user = g0.product_to_user →
    ∀ e ∈ l, ∀ L, (runA g l).1.user_to_product e.1 e.2 L = g0.phaseAValue e L := by
  induction l with
  | nil => intro g _ _ _ _ e he; cases he
  | cons a t ih =>
    intro g h1 h2 h3 h4 e he L
    by_cases ht : e ∈ t
    · exact ih (g.stepA a).1 h1 h2 h3 h4 e ht L
    · have hea : e = a := by
        rcases List.mem_cons.1 he with h | h
        · exact h
        · exact absurd h ht
      subst hea
      have hnm : (e.1, e.2) ∉ t := by simpa using ht
      have h5 : (runA g (e :: t)).1.user_to_product e.1 e.2 L =
          (g.stepA e).1.user_to_product e.1 e.2 L :=
        runA_utp_not_mem t (g.stepA e).1 e.1 e.2 hnm L
      rw [h5, stepA_utp, if_pos ⟨rfl, rfl⟩]
      exact phaseAValue_congr h1 h2 h3 h4 e L

lemma runB_ptu_mem (g0 : ReviewGraph) (l : List (ℕ × ℕ)) : ∀ g : ReviewGraph,
    g.epsilon = g0.epsilon → g.rating = g0.rating → g.edges = g0.edges →
    g.user_to_product = g0.user_to_product →
    ∀ e ∈ l, ∀ U, (runB g l).1.product_to_user e.1 e.2 U = g0.phaseBValue e U := by
  induction l with
  | nil => intro g _ _ _ _ e he; cases he
  | cons a t ih =>
    intro g h1 h2 h3 h4 e he U
    by_cases ht : e ∈ t
    · exact ih (g.stepB a).1 h1 h2 h3 h4 e ht U
    · have hea : e = a := by
        rcases List.mem_cons.1 he with h | h
        · exact h
        · exact absurd h ht
      subst hea
      have hnm : (e.1, e.2) ∉ t := by simpa using ht
      have h5 : (runB g (e :: t)).1.product_to_user e.1 e.2 U =
          (g.stepB e).1.product_to_user e.1 e.2 U :=
        runB_ptu_not_mem t (g.stepB e).1 e.1 e.2 hnm U
      rw [h5, stepB_ptu, if_pos ⟨rfl, rfl⟩]
      exact phaseBValue_congr h1 h2 h3 h4 e U

end ReviewGraph

namespace ReviewGraph

lemma diffA_congr {g g0 : ReviewGraph} (h1 : g.epsilon = g0.epsilon)
    (h2 : g.rating = g0.rating) (h3 : g.edges = g0.edges)
    (h4 : g.product_to_user = g0.product_to_user) (e : ℕ × ℕ)
    (hm : ∀ L, g.user_to_product e.1 e.2 L = g0.user_to_product e.1 e.2 L) (L : ProductLabel) :
    g.diffA e L = g0.diffA e L := by
  unfold diffA
  rw [hm, phaseAValue_congr h1 h2 h3 h4]

lemma diffB_congr {g g0 : ReviewGraph} (h1 : g.epsilon = g0.epsilon)
    (h2 : g.rating = g0.rating) (h3 : g.edges = g0.edges)
    (h4 : g.user_to_product = g0.user_to_product) (e : ℕ × ℕ)
    (hm : ∀ U, g.product_to_user e.1 e.2 U = g0.product_to_user e.1 e.2 U) (U : UserLabel) :
    g.diffB e U = g0.diffB e U := by
  unfold diffB
  rw [hm, phaseBValue_congr h1 h2 h3 h4]

lemma runA_diffs (g0 : ReviewGraph) (l : List (ℕ × ℕ)) : ∀ g : ReviewGraph,
    g.epsilon = g0.epsilon → g.rating = g0.rating → g.edges = g0.edges →
    g.product_to_user = g0.product_to_user →
    (∀ e ∈ l, ∀ L, g.user_to_product e.1 e.2 L = g0.user_to_product e.1 e.2 L) →
    l.Nodup →
    (runA g l).2 = l.flatMap (fun e => [g0.diffA e ProductLabel.GOOD, g0.diffA e ProductLabel.BAD]) := by
  induction l with
  | nil => intros; rfl
  | cons a t ih =>
    intro g h1 h2 h3 h4 hm hnd
    have hsplit : (runA g (a :: t)).2 = (g.stepA a).2 ++ (runA (g.stepA a).1 t).2 := rfl
    rw [hsplit, List.flatMap_cons]
    congr 1
    · rw [stepA_snd]
      have hma := hm a (List.mem_cons_self a t)
      rw [diffA_congr h1 h2 h3 h4 a hma, diffA_congr h1 h2 h3 h4 a hma]
    · refine ih (g.stepA a).1 h1 h2 h3 h4 ?_ hnd.of_cons
      intro e he L
      have hne : ¬(e.1 = a.1 ∧ e.2 = a.2) := by
        rintro ⟨hx, hy⟩
        have : e = a := by cases e; cases a; simp_all
        exact (List.nodup_cons.1 hnd).1 (this ▸ he)
      rw [stepA_utp, if_neg hne]
      exact hm e (List.mem_cons_of_mem _ he) L

lemma runB_diffs (g0 : ReviewGraph) (l : List (ℕ × ℕ)) : ∀ g : ReviewGraph,
    g.epsilon = g0.epsilon → g.rating = g0.rating → g.edges = g0.edges →
    g.user_to_product = g0.user_to_product →
    (∀ e ∈ l, ∀ U, g.product_to_user e.1 e.2 U = g0.product_to_user e.1 e.2 U) →
    l.Nodup →
    (runB g l).2 = l.flatMap (fun e => [g0.diffB e UserLabel.HONEST, g0.diffB e UserLabel.FRAUD]) := by
  induction l with
  | nil => intros; rfl
  | cons a t ih =>
    intro g h1 h2 h3 h4 hm hnd
    have hsplit : (runB g (a :: t)).2 = (g.stepB a).2 ++ (runB (g.stepB a).1 t).2 := rfl
    rw [hsplit, List.flatMap_cons]
    congr 1
    · rw [stepB_snd]
      have hma := hm a (List.mem_cons_self a t)
      rw [diffB_congr h1 h2 h3 h4 a hma, diffB_congr h1 h2 h3 h4 a hma]
    · refine ih (g.stepB a).1 h1 h2 h3 h4 ?_ hnd.of_cons
      intro e he U
      have hne : ¬(e.1 = a.1 ∧ e.2 = a.2) := by
        rintro ⟨hx, hy⟩
        have : e = a := by cases e; cases a; simp_all
        exact (List.nodup_cons.1 hnd).1 (this ▸ he)
      rw [stepB_ptu, if_neg hne]
      exact hm e (List.mem_cons_of_mem _ he) U

end ReviewGraph

namespace ReviewGraph

lemma pairsB_congr {g g0 : ReviewGraph} (hP : g.products = g0.products)
    (hE : g.edges = g0.edges) : g.pairsB = g0.pairsB := by
  simp only [pairsB, retrieve_reviewers, hP, hE]

lemma phaseAResult_ptu (g : ReviewGraph) :
    g.phaseAResult.product_to_user = g.product_to_user :=
  (runA_preserve g.pairsA g).2.2.2.2.2

lemma phaseAResult_products (g : ReviewGraph) : g.phaseAResult.products = g.products :=
  (runA_preserve g.pairsA g).2.2.1

lemma phaseAResult_edges (g : ReviewGraph) : g.phaseAResult.edges = g.edges :=
  (runA_preserve g.pairsA g).2.2.2.1

lemma phaseAResult_utp (g : ReviewGraph) (r p : ℕ) (hr : r ∈ g.reviewers)
    (he : (r, p) ∈ g.edges) (L : ProductLabel) :
    g.phaseAResult.user_to_product r p L = g.phaseAValue (r, p) L :=
  runA_utp_mem g g.pairsA g rfl rfl rfl rfl (r, p) ((g.mem_pairsA (r, p)).2 ⟨hr, he⟩) L

lemma update_fst_utp (g : ReviewGraph) (r p : ℕ) (L : ProductLabel) :
    (g.update).1.user_to_product r p L = g.phaseAResult.user_to_product r p L := by
  have h := (runB_preserve (pairsB g.phaseAResult) g.phaseAResult).2.2.2.2.2
  exact congrFun (congrFun (congrFun h r) p) L

lemma update_fst_ptu (g : ReviewGraph) (r p : ℕ) (hp : p ∈ g.products)
    (he : (r, p) ∈ g.edges) (U : UserLabel) :
    (g.update).1.product_to_user r p U = g.phaseAResult.phaseBValue (r, p) U := by
  have hmem : (r, p) ∈ g.phaseAResult.pairsB :=
    (g.phaseAResult.mem_pairsB (r, p)).2
      ⟨by rw [phaseAResult_products]; exact hp, by rw [phaseAResult_edges]; exact he⟩
  exact runB_ptu_mem g.phaseAResult (pairsB g.phaseAResult) g.phaseAResult rfl rfl rfl rfl
    (r, p) hmem U

lemma anomalous_score_pos (g : ReviewGraph) (r : ℕ) : 0 < g.anomalous_score r :=
  Real.exp_pos _

lemma anomalous_score_lt_one (g : ReviewGraph) (r : ℕ) : g.anomalous_score r < 1 :=
  exp_sub_logaddexp_lt_one _ _

end ReviewGraph

/-! Dictionary-level helpers. -/

lemma lookup_eq_none_of_not_mem_keys {α β : Type} [BEq α] [LawfulBEq α]
    (d : List (α × β)) (k : α) (h : k ∉ d.map Prod.fst) : List.lookup k d = none := by
  induction d with
  | nil => rfl
  | cons a t ih =>
    rw [show a = (a.1, a.2) from rfl, List.lookup_cons]
    have hne : k ≠ a.1 := fun hc => h (by simp [hc])
    have hb : (k == a.1) = false := beq_eq_false_iff_ne.2 hne
    rw [hb]
    exact ih (fun hc => h (List.mem_cons_of_mem _ hc))

lemma msgStore_keys (d : List (MKey × ℝ)) (k : MKey) (v : ℝ) (hk : k ∈ d.map Prod.fst) :
    (msgStore d k v).map Prod.fst = d.map Prod.fst := by
  unfold msgStore
  rw [if_pos]
  · rw [List.map_map]
    refine List.map_congr_left ?_
    intro kv _
    by_cases hkv : kv.1 = k
    · simp [hkv]
    · simp [hkv]
  · rw [List.any_eq_true]
    rcases List.mem_map.1 hk with ⟨kv, hkv, rfl⟩
    exact ⟨kv, hkv, by simp⟩

/-! The claims. -/

/-- Claim C2: `psi` returns exactly the truth-table value for every epsilon and
every valid label triple — for a PLUS review, honest/good = 1-e, honest/bad = e,
fraud/good = 2e, fraud/bad = 1-2e; for a MINUS review the complementary table —
and for each fixed user label and review polarity the two product-label entries
sum to 1. -/
theorem psi_truth_table (epsilon : ℚ) :
    psi UserLabel.HONEST ProductLabel.GOOD ReviewLabel.PLUS epsilon = 1 - epsilon ∧
    psi UserLabel.HONEST ProductLabel.BAD ReviewLabel.PLUS epsilon = epsilon ∧
    psi UserLabel.FRAUD ProductLabel.GOOD ReviewLabel.PLUS epsilon = 2 * epsilon ∧
    psi UserLabel.FRAUD ProductLabel.BAD ReviewLabel.PLUS epsilon = 1 - 2 * epsilon ∧
    psi UserLabel.HONEST ProductLabel.GOOD ReviewLabel.MINUS epsilon = epsilon ∧
    psi UserLabel.HONEST ProductLabel.BAD ReviewLabel.MINUS epsilon = 1 - epsilon ∧
    psi UserLabel.FRAUD ProductLabel.GOOD ReviewLabel.MINUS epsilon = 1 - 2 * epsilon ∧
    psi UserLabel.FRAUD ProductLabel.BAD ReviewLabel.MINUS epsilon = 2 * epsilon ∧
    (∀ (u : UserLabel) (rl : ReviewLabel),
      psi u ProductLabel.GOOD rl epsilon + psi u ProductLabel.BAD rl epsilon = 1) := by
  refine ⟨rfl, rfl, rfl, rfl, rfl, rfl, rfl, rfl, ?_⟩
  intro u rl
  cases u <;> cases rl <;> simp [psi]

/-- Claim C3: constructing a `ReviewGraph` succeeds exactly when epsilon lies in
the open interval (0, 0.5); on success the stored epsilon is the given value
(never clamped) and the graph is empty; outside the interval (in particular at
0 and at 0.5) construction fails and no graph is produced. -/
theorem reviewgraph_new_validates_epsilon (epsilon : ℚ) :
    ((∃ g, ReviewGraph.new epsilon = some g ∧ g.epsilon = epsilon ∧ g.reviewers = [] ∧
        g.products = [] ∧ g.edges = []) ↔ 0 < epsilon ∧ epsilon < 1 / 2) ∧
    (ReviewGraph.new epsilon = none ↔ (epsilon ≤ 0 ∨ 1 / 2 ≤ epsilon)) := by
  unfold ReviewGraph.new
  by_cases h : epsilon ≤ 0 ∨ 1 / 2 ≤ epsilon
  · rw [if_pos h]
    refine ⟨⟨?_, ?_⟩, fun _ => h, fun _ => rfl⟩
    · rintro ⟨g, hg, _⟩
      cases hg
    · rintro ⟨h1, h2⟩
      rcases h with h | h <;> linarith
  · rw [if_neg h]
    simp only [not_or, not_le] at h
    refine ⟨⟨fun _ => h, fun _ => ⟨_, rfl, rfl, rfl, rfl, rfl⟩⟩, ?_, ?_⟩
    · intro hc
      exact absurd hc (by simp)
    · rintro (h1 | h2)
      · exact absurd h1 (not_le.2 h.1)
      · exact absurd h2 (not_le.2 h.2)

/-- Witness for C3: at epsilon = 1/4 construction succeeds with the exact
epsilon stored; at 0 and 1/2 it fails. -/
theorem reviewgraph_new_validates_epsilon_witness :
    (∃ g, ReviewGraph.new (1 / 4 : ℚ) = some g ∧ g.epsilon = 1 / 4 ∧ g.reviewers = [] ∧
        g.products = [] ∧ g.edges = []) ∧
    ReviewGraph.new (0 : ℚ) = none ∧ ReviewGraph.new (1 / 2 : ℚ) = none :=
  ⟨(reviewgraph_new_validates_epsilon (1 / 4)).1.mpr (by norm_num),
   (reviewgraph_new_validates_epsilon 0).2.mpr (by norm_num),
   (reviewgraph_new_validates_epsilon (1 / 2)).2.mpr (by norm_num)⟩

/-- Claim C10: on a graph with no review edges (even one with reviewers and
products) `update` produces no delta: the maximum is over an empty list of
diffs, so the call fails (Python `max([])` raises `ValueError`; here the
returned delta is `none`). -/
theorem update_no_edges_fails (g : ReviewGraph) (h : g.edges = []) :
    (g.update).2 = none := by
  have hA : g.pairsA = [] := by
    simp [ReviewGraph.pairsA, ReviewGraph.retrieve_products, h]
  have hB : g.pairsB = [] := by
    simp [ReviewGraph.pairsB, ReviewGraph.retrieve_reviewers, h]
  show ((ReviewGraph.runA g g.pairsA).2 ++
    (ReviewGraph.runB (ReviewGraph.runA g g.pairsA).1
      (ReviewGraph.pairsB (ReviewGraph.runA g g.pairsA).1)).2).max? = none
  rw [hA]
  show (([] : List ℝ) ++ (ReviewGraph.runB g g.pairsB).2).max? = none
  rw [hB]
  rfl

/-- Witness for C10: the edgeless example graph, which has reviewers and
products but no edges, gets no delta from `update`. -/
theorem update_no_edges_fails_witness :
    edgelessGraph.edges = [] ∧ (edgelessGraph.update).2 = none :=
  ⟨rfl, update_no_edges_fails edgelessGraph rfl⟩

/-- Claim C9: querying a message dictionary with a label outside the
direction's domain, or retrieving the review of a pair with no edge, yields a
typed failure (`none`, embedding the Python `KeyError`), never a silently
wrong value; the query functions are pure, so the graph and message state are
unchanged, and a successful retrieval returns exactly the stored state. -/
theorem query_domain_errors (g : ReviewGraph) (r p : ℕ) :
    (∀ (d : List (MKey × ℝ)) (U : UserLabel),
      d.map Prod.fst = [MKey.p ProductLabel.GOOD, MKey.p ProductLabel.BAD] →
      List.lookup (MKey.u U) d = none) ∧
    (∀ (d : List (MKey × ℝ)) (L : ProductLabel),
      d.map Prod.fst = [MKey.u UserLabel.HONEST, MKey.u UserLabel.FRAUD] →
      List.lookup (MKey.p L) d = none) ∧
    (g.retrieve_review r p = none ↔ (r, p) ∉ g.edges) ∧
    (∀ rev, g.retrieve_review r p = some rev →
      (r, p) ∈ g.edges ∧ rev.rating = g.rating r p ∧
      (∀ L, List.lookup (MKey.p L) rev.user_to_product = some (g.user_to_product r p L)) ∧
      (∀ U, List.lookup (MKey.u U) rev.product_to_user = some (g.product_to_user r p U))) := by
  refine ⟨?_, ?_, ?_, ?_⟩
  · intro d U hd
    refine lookup_eq_none_of_not_mem_keys d _ ?_
    rw [hd]
    cases U <;> decide
  · intro d L hd
    refine lookup_eq_none_of_not_mem_keys d _ ?_
    rw [hd]
    cases L <;> decide
  · unfold ReviewGraph.retrieve_review
    by_cases h : (r, p) ∈ g.edges
    · rw [if_pos h]
      simp [h]
    · rw [if_neg h]
      simp [h]
  · intro rev hrev
    unfold ReviewGraph.retrieve_review at hrev
    by_cases h : (r, p) ∈ g.edges
    · rw [if_pos h] at hrev
      cases hrev
      refine ⟨h, rfl, ?_, ?_⟩
      · intro L
        cases L <;> rfl
      · intro U
        cases U <;> rfl
    · rw [if_neg h] at hrev
      cases hrev

/-- Witness for C9: on the example graph, an out-of-domain label lookup on a
fresh review's dictionary and a review retrieval for the edgeless pair (3, 10)
both return the typed failure `none`. -/
theorem query_domain_errors_witness :
    List.lookup (MKey.u UserLabel.HONEST) (Review.init (1 / 2)).user_to_product = none ∧
    exampleGraph.retrieve_review 3 10 = none :=
  ⟨(query_domain_errors exampleGraph 3 10).1 (Review.init (1 / 2)).user_to_product
      UserLabel.HONEST rfl,
   (query_domain_errors exampleGraph 3 10).2.2.1.mpr (by decide)⟩

/-- Claim C5: for a reviewer of a product, `prod_message_from_users` with that
reviewer equals the all-reviewers value minus the reviewer's own
user-to-product log-message (log-space subtraction from the cached total), the
all-reviewers value (`reviewer = None`) is the sum of the user-to-product
log-messages over all reviewers of the product (so the exclusion equals the
sum over the other reviewers), and symmetrically for
`prod_message_from_products` over a reviewer's products. -/
theorem prod_message_exclusion (g : ReviewGraph) (hE : g.edges.Nodup) (r p : ℕ)
    (he : (r, p) ∈ g.edges) (L : ProductLabel) (U : UserLabel) :
    (g.prod_message_from_users none p L =
      ((g.retrieve_reviewers p).map (fun x => g.user_to_product x p L)).sum) ∧
    (g.prod_message_from_users (some r) p L =
      g.prod_message_from_users none p L - g.user_to_product r p L) ∧
    (g.prod_message_from_users (some r) p L =
      (((g.retrieve_reviewers p).erase r).map (fun x => g.user_to_product x p L)).sum) ∧
    (g.prod_message_from_products r none U =
      ((g.retrieve_products r).map (fun x => g.product_to_user r x U)).sum) ∧
    (g.prod_message_from_products r (some p) U =
      g.prod_message_from_products r none U - g.product_to_user r p U) ∧
    (g.prod_message_from_products r (some p) U =
      (((g.retrieve_products r).erase p).map (fun x => g.product_to_user r x U)).sum) := by
  have hdu : (g.retrieve_reviewers p).dedup = g.retrieve_reviewers p :=
    List.dedup_eq_self.2 (g.nodup_retrieve_reviewers hE p)
  have hdp : (g.retrieve_products r).dedup = g.retrieve_products r :=
    List.dedup_eq_self.2 (g.nodup_retrieve_products hE r)
  have h1 : g.prod_message_from_users none p L =
      ((g.retrieve_reviewers p).map (fun x => g.user_to_product x p L)).sum := by
    unfold ReviewGraph.prod_message_from_users ReviewGraph.prod_message_from_all_users
    rw [hdu]
    ring
  have h2 : g.prod_message_from_users (some r) p L =
      g.prod_message_from_users none p L - g.user_to_product r p L := by
    unfold ReviewGraph.prod_message_from_users
    ring
  have hmemr : r ∈ g.retrieve_reviewers p := (g.mem_retrieve_reviewers r p).2 he
  have hpermr := ((List.perm_cons_erase hmemr).map (fun x => g.user_to_product x p L)).sum_eq
  have h3 : g.prod_message_from_users (some r) p L =
      (((g.retrieve_reviewers p).erase r).map (fun x => g.user_to_product x p L)).sum := by
    rw [h2, h1, hpermr, List.map_cons, List.sum_cons]
    ring
  have h4 : g.prod_message_from_products r none U =
      ((g.retrieve_products r).map (fun x => g.product_to_user r x U)).sum := by
    unfold ReviewGraph.prod_message_from_products ReviewGraph.prod_message_from_all_products
    rw [hdp]
    ring
  have h5 : g.prod_message_from_products r (some p) U =
      g.prod_message_from_products r none U - g.product_to_user r p U := by
    unfold ReviewGraph.prod_message_from_products
    ring
  have hmemp : p ∈ g.retrieve_products r := (g.mem_retrieve_products r p).2 he
  have hpermp := ((List.perm_cons_erase hmemp).map (fun x => g.product_to_user r x U)).sum_eq
  have h6 : g.prod_message_from_products r (some p) U =
      (((g.retrieve_products r).erase p).map (fun x => g.product_to_user r x U)).sum := by
    rw [h5, h4, hpermp, List.map_cons, List.sum_cons]
    ring
  exact ⟨h1, h2, h3, h4, h5, h6⟩

/-- Witness for C5 at the example graph, edge (0, 10). -/
theorem prod_message_exclusion_witness :
    exampleGraph.edges.Nodup ∧ (0, 10) ∈ exampleGraph.edges ∧
    (exampleGraph.prod_message_from_users none 10 ProductLabel.GOOD =
      ((exampleGraph.retrieve_reviewers 10).map
        (fun x => exampleGraph.user_to_product x 10 ProductLabel.GOOD)).sum) ∧
    (exampleGraph.prod_message_from_users (some 0) 10 ProductLabel.GOOD =
      exampleGraph.prod_message_from_users none 10 ProductLabel.GOOD -
        exampleGraph.user_to_product 0 10 ProductLabel.GOOD) ∧
    (exampleGraph.prod_message_from_users (some 0) 10 ProductLabel.GOOD =
      (((exampleGraph.retrieve_reviewers 10).erase 0).map
        (fun x => exampleGraph.user_to_product x 10 ProductLabel.GOOD)).sum) := by
  have h := prod_message_exclusion exampleGraph (by decide) 0 10 (by decide)
    ProductLabel.GOOD UserLabel.HONEST
  exact ⟨by decide, by decide, h.1, h.2.1, h.2.2.1⟩

/-- Claim C7: for a reviewer with at least one review, `anomalous_score` equals
`exp(b[FRAUD] - logaddexp(b[HONEST], b[FRAUD]))` where
`b[label] = phi_u(label) + sum over all reviewed products (no exclusion) of
the edge's product-to-user log-message for that label`, and the score lies
strictly between 0 and 1. -/
theorem anomalous_score_formula (g : ReviewGraph) (hE : g.edges.Nodup) (r : ℕ)
    (hne : g.retrieve_products r ≠ []) :
    (g.anomalous_score r = Real.exp (g.belief r UserLabel.FRAUD -
      logaddexp (g.belief r UserLabel.HONEST) (g.belief r UserLabel.FRAUD))) ∧
    (∀ U, g.belief r U =
      phi_u U + ((g.retrieve_products r).map (fun x => g.product_to_user r x U)).sum) ∧
    0 < g.anomalous_score r ∧ g.anomalous_score r < 1 := by
  refine ⟨rfl, ?_, g.anomalous_score_pos r, g.anomalous_score_lt_one r⟩
  intro U
  unfold ReviewGraph.belief ReviewGraph.prod_message_from_products
    ReviewGraph.prod_message_from_all_products
  rw [List.dedup_eq_self.2 (g.nodup_retrieve_products hE r)]
  ring

/-- Witness for C7 at the example graph, reviewer 0 (who reviews product 10). -/
theorem anomalous_score_formula_witness :
    exampleGraph.edges.Nodup ∧ exampleGraph.retrieve_products 0 ≠ [] ∧
    0 < exampleGraph.anomalous_score 0 ∧ exampleGraph.anomalous_score 0 < 1 := by
  have h := anomalous_score_formula exampleGraph (by decide) 0 (by decide)
  exact ⟨by decide, by decide, h.2.2.1, h.2.2.2⟩

/-- Claim C8: `summary` is the trust-weighted average of the product's review
ratings (weight `1 - anomalous_score`); when every trust weight is exactly
zero it is the unweighted mean rating instead, and the code's zero test on
the weight sum coincides with all weights being zero (each weight is
positive), so a zero weight sum never reaches the weighted division. -/
theorem summary_weighted_average (g : ReviewGraph) (p : ℕ) :
    ((∀ w ∈ g.trust_weights p, w = (0 : ℝ)) →
      g.summary p = (g.summary_ratings p).sum / ((g.retrieve_reviewers p).length : ℝ)) ∧
    (¬(∀ w ∈ g.trust_weights p, w = (0 : ℝ)) →
      g.summary p = (List.zipWith (fun w x => w * x) (g.trust_weights p)
        (g.summary_ratings p)).sum / (g.trust_weights p).sum) ∧
    ((g.trust_weights p).sum = 0 ↔ ∀ w ∈ g.trust_weights p, w = (0 : ℝ)) := by
  have hpos : ∀ w ∈ g.trust_weights p, (0 : ℝ) < w := by
    intro w hw
    rcases List.mem_map.1 hw with ⟨x, _, rfl⟩
    have := g.anomalous_score_lt_one x
    linarith
  have hiff : (g.trust_weights p).sum = 0 ↔ ∀ w ∈ g.trust_weights p, w = (0 : ℝ) := by
    constructor
    · intro hsum w hw
      by_cases hnil : g.trust_weights p = []
      · rw [hnil] at hw
        cases hw
      · exact absurd hsum (ne_of_gt (List.sum_pos _ hpos hnil))
    · exact List.sum_eq_zero
  refine ⟨?_, ?_, hiff⟩
  · intro hall
    unfold ReviewGraph.summary
    rw [if_pos (hiff.2 hall)]
  · intro hn
    unfold ReviewGraph.summary
    rw [if_neg (fun hc => hn (hiff.1 hc))]

/-- Witness for C8 at the example graph, product 11 (no reviewers, so every
trust weight is vacuously zero and the mean branch is taken). -/
theorem summary_weighted_average_witness :
    (∀ w ∈ exampleGraph.trust_weights 11, w = (0 : ℝ)) ∧
    exampleGraph.summary 11 = (exampleGraph.summary_ratings 11).sum /
      ((exampleGraph.retrieve_reviewers 11).length : ℝ) := by
  have hnil : exampleGraph.retrieve_reviewers 11 = [] := by decide
  have hall : ∀ w ∈ exampleGraph.trust_weights 11, w = (0 : ℝ) := by
    intro w hw
    rw [ReviewGraph.trust_weights, hnil] at hw
    cases hw
  exact ⟨hall, (summary_weighted_average exampleGraph 11).1 hall⟩

/-- Claim C1: `update` recomputes all user-to-product messages (Phase A) and
only then all product-to-user messages (Phase B).  Phase A leaves the
product-to-user messages at their pre-call values and its result for every
edge is `phaseAValue` of the pre-call state, which reads no user-to-product
message; the final product-to-user message of every edge is `phaseBValue` of
the post-Phase-A state, which reads no product-to-user message — i.e. Phase A
reads only the pre-call product-to-user messages and Phase B only the
user-to-product messages as rewritten by Phase A of the same call. -/
theorem update_two_phase_snapshot (g : ReviewGraph) (r p : ℕ)
    (hr : r ∈ g.reviewers) (hp : p ∈ g.products) (he : (r, p) ∈ g.edges) :
    (g.phaseAResult.product_to_user = g.product_to_user) ∧
    (∀ L, g.phaseAResult.user_to_product r p L = g.phaseAValue (r, p) L) ∧
    (∀ f L, ReviewGraph.phaseAValue { g with user_to_product := f } (r, p) L =
      g.phaseAValue (r, p) L) ∧
    (∀ U, (g.update).1.product_to_user r p U = g.phaseAResult.phaseBValue (r, p) U) ∧
    (∀ f U, ReviewGraph.phaseBValue { g.phaseAResult with product_to_user := f } (r, p) U =
      g.phaseAResult.phaseBValue (r, p) U) ∧
    (∀ L, (g.update).1.user_to_product r p L = g.phaseAResult.user_to_product r p L) :=
  ⟨g.phaseAResult_ptu,
   fun L => g.phaseAResult_utp r p hr he L,
   fun _ _ => rfl,
   fun U => g.update_fst_ptu r p hp he U,
   fun _ _ => rfl,
   fun L => g.update_fst_utp r p L⟩

/-- Witness for C1 at the example graph, edge (0, 10). -/
theorem update_two_phase_snapshot_witness :
    (0 ∈ exampleGraph.reviewers ∧ 10 ∈ exampleGraph.products ∧
      (0, 10) ∈ exampleGraph.edges) ∧
    ((exampleGraph.phaseAResult.product_to_user = exampleGraph.product_to_user) ∧
     (∀ L, exampleGraph.phaseAResult.user_to_product 0 10 L =
       exampleGraph.phaseAValue (0, 10) L) ∧
     (∀ U, (exampleGraph.update).1.product_to_user 0 10 U =
       exampleGraph.phaseAResult.phaseBValue (0, 10) U) ∧
     (∀ L, (exampleGraph.update).1.user_to_product 0 10 L =
       exampleGraph.phaseAResult.user_to_product 0 10 L)) := by
  have h := update_two_phase_snapshot exampleGraph 0 10 (by decide) (by decide) (by decide)
  exact ⟨⟨by decide, by decide, by decide⟩, h.1, h.2.1, h.2.2.2.1, h.2.2.2.2.2⟩

/-- Claim C4: each message dictionary of a review contains exactly the two
labels of its domain at all times (at construction and under in-domain
stores), all four messages equal `log 0.5` at construction, and after a
completed `update` call the exponentials of the two stored log-messages of
each direction of an edge sum to 1 (both labels rewritten together and
jointly normalized). -/
theorem message_state_invariants (g : ReviewGraph) (r p : ℕ)
    (hr : r ∈ g.reviewers) (hp : p ∈ g.products) (he : (r, p) ∈ g.edges) :
    (∀ ρ : ℚ,
      (Review.init ρ).user_to_product.map Prod.fst =
        [MKey.p ProductLabel.GOOD, MKey.p ProductLabel.BAD] ∧
      (Review.init ρ).product_to_user.map Prod.fst =
        [MKey.u UserLabel.HONEST, MKey.u UserLabel.FRAUD] ∧
      (∀ L, List.lookup (MKey.p L) (Review.init ρ).user_to_product = some (Real.log 0.5)) ∧
      (∀ U, List.lookup (MKey.u U) (Review.init ρ).product_to_user = some (Real.log 0.5))) ∧
    (∀ (d : List (MKey × ℝ)) (v : ℝ) (L : ProductLabel),
      d.map Prod.fst = [MKey.p ProductLabel.GOOD, MKey.p ProductLabel.BAD] →
      (msgStore d (MKey.p L) v).map Prod.fst =
        [MKey.p ProductLabel.GOOD, MKey.p ProductLabel.BAD]) ∧
    (∀ (d : List (MKey × ℝ)) (v : ℝ) (U : UserLabel),
      d.map Prod.fst = [MKey.u UserLabel.HONEST, MKey.u UserLabel.FRAUD] →
      (msgStore d (MKey.u U) v).map Prod.fst =
        [MKey.u UserLabel.HONEST, MKey.u UserLabel.FRAUD]) ∧
    (Real.exp ((g.update).1.user_to_product r p ProductLabel.GOOD) +
      Real.exp ((g.update).1.user_to_product r p ProductLabel.BAD) = 1) ∧
    (Real.exp ((g.update).1.product_to_user r p UserLabel.HONEST) +
      Real.exp ((g.update).1.product_to_user r p UserLabel.FRAUD) = 1) := by
  refine ⟨?_, ?_, ?_, ?_, ?_⟩
  · intro ρ
    exact ⟨rfl, rfl, fun L => by cases L <;> rfl, fun U => by cases U <;> rfl⟩
  · intro d v L hd
    have hk : MKey.p L ∈ d.map Prod.fst := by
      rw [hd]
      cases L <;> decide
    rw [msgStore_keys d _ v hk, hd]
  · intro d v U hd
    have hk : MKey.u U ∈ d.map Prod.fst := by
      rw [hd]
      cases U <;> decide
    rw [msgStore_keys d _ v hk, hd]
  · rw [g.update_fst_utp r p ProductLabel.GOOD, g.update_fst_utp r p ProductLabel.BAD,
      g.phaseAResult_utp r p hr he ProductLabel.GOOD, g.phaseAResult_utp r p hr he ProductLabel.BAD]
    exact exp_norm_pair _ _
  · rw [g.update_fst_ptu r p hp he UserLabel.HONEST, g.update_fst_ptu r p hp he UserLabel.FRAUD]
    exact exp_norm_pair _ _

/-- Witness for C4 at the example graph, edge (0, 10). -/
theorem message_state_invariants_witness :
    (0 ∈ exampleGraph.reviewers ∧ 10 ∈ exampleGraph.products ∧
      (0, 10) ∈ exampleGraph.edges) ∧
    (∀ L, List.lookup (MKey.p L) (Review.init (3 / 4)).user_to_product =
      some (Real.log 0.5)) ∧
    (Real.exp ((exampleGraph.update).1.user_to_product 0 10 ProductLabel.GOOD) +
      Real.exp ((exampleGraph.update).1.user_to_product 0 10 ProductLabel.BAD) = 1) ∧
    (Real.exp ((exampleGraph.update).1.product_to_user 0 10 UserLabel.HONEST) +
      Real.exp ((exampleGraph.update).1.product_to_user 0 10 UserLabel.FRAUD) = 1) := by
  have h := message_state_invariants exampleGraph 0 10 (by decide) (by decide) (by decide)
  exact ⟨⟨by decide, by decide, by decide⟩, (h.1 (3 / 4)).2.2.1, h.2.2.2.1, h.2.2.2.2⟩

/-- Claim C6: `update` returns the maximum, over every (edge, label) pair
touched in both phases (two user-to-product diffs per Phase-A edge, two
product-to-user diffs per Phase-B edge), of the absolute probability-space
difference between the exponential of the old message and the exponential of
the new normalized message; each Phase-B old value is the pre-call
product-to-user message. -/
theorem update_returns_max_diff (g : ReviewGraph) (hE : g.edges.Nodup)
    (hR : g.reviewers.Nodup) (hP : g.products.Nodup) :
    ((g.update).2 =
      (g.pairsA.flatMap (fun e => [g.diffA e ProductLabel.GOOD, g.diffA e ProductLabel.BAD]) ++
       g.pairsB.flatMap (fun e =>
         [g.phaseAResult.diffB e UserLabel.HONEST,
          g.phaseAResult.diffB e UserLabel.FRAUD])).max?) ∧
    (∀ e U, g.phaseAResult.diffB e U =
      |Real.exp (g.product_to_user e.1 e.2 U) - Real.exp (g.phaseAResult.phaseBValue e U)|) := by
  have hDA := ReviewGraph.runA_diffs g g.pairsA g rfl rfl rfl rfl (fun _ _ _ => rfl)
    (g.nodup_pairsA hR hE)
  have hpB : g.phaseAResult.pairsB = g.pairsB :=
    ReviewGraph.pairsB_congr g.phaseAResult_products g.phaseAResult_edges
  have hNodB : g.phaseAResult.pairsB.Nodup := by
    rw [hpB]
    exact g.nodup_pairsB hP hE
  have hDB := ReviewGraph.runB_diffs g.phaseAResult g.phaseAResult.pairsB g.phaseAResult
    rfl rfl rfl rfl (fun _ _ _ => rfl) hNodB
  constructor
  · show ((ReviewGraph.runA g g.pairsA).2 ++
      (ReviewGraph.runB g.phaseAResult g.phaseAResult.pairsB).2).max? = _
    rw [hDA, hDB, hpB]
  · intro e U
    unfold ReviewGraph.diffB
    rw [g.phaseAResult_ptu]

/-- Witness for C6 at the example graph. -/
theorem update_returns_max_diff_witness :
    (exampleGraph.edges.Nodup ∧ exampleGraph.reviewers.Nodup ∧
      exampleGraph.products.Nodup) ∧
    (exampleGraph.update).2 =
      (exampleGraph.pairsA.flatMap (fun e =>
        [exampleGraph.diffA e ProductLabel.GOOD, exampleGraph.diffA e ProductLabel.BAD]) ++
       exampleGraph.pairsB.flatMap (fun e =>
         [exampleGraph.phaseAResult.diffB e UserLabel.HONEST,
          exampleGraph.phaseAResult.diffB e UserLabel.FRAUD])).max? := by
  have h := update_returns_max_diff exampleGraph (by decide) (by decide) (by decide)
  exact ⟨⟨by decide, by decide, by decide⟩, h.1⟩
